import Mathlib

/-!
Verification of the leaps collaborative-editor core.

The repository sources available are `lib/auth/redis_based.go` (the Redis
token authorizer, embedded below in the `Leaps.Auth` namespace) and the
Binder's test file.  The Binder and its transform algebra are exercised by
those tests but their implementation file is not present, so the
`Leaps.Binder` namespace models them from the specification (§3, §4.A,
§4.C, §4.D), with each such definition marked `Modelled from the spec:`.
-/

namespace Leaps

namespace Binder

/-- Modelled from the spec: §3 "Edit (OTransform)" — an edit with a
nonnegative code-point `position`, a `version` tag, a `delete` count and an
`insert` code-point sequence.  Content is a sequence of code points, so
`insert` is a `List Char`. -/
structure OTransform where
  position : Nat
  version  : Nat
  delete   : Nat
  insert   : List Char
deriving DecidableEq

/-- Modelled from the spec: §4.A operation 1, `Apply(E, text)` returns
`text[:pos] + ins + text[pos+del:]`. -/
def applyOT (e : OTransform) (text : List Char) : List Char :=
  text.take e.position ++ e.insert ++ text.drop (e.position + e.delete)

/-- Modelled from the spec: §4.A operation 2, `Transform(E_new, E_old)`.
The three rules in order: E_old entirely before E_new shifts E_new by
`len(E_old.I) − E_old.D`; E_new entirely before E_old is unchanged;
otherwise the overlapping part of E_new's delete range is clamped away and
E_new is repositioned to the start of the surviving region (Nat subtraction
realises the spec's "floored at 0").  The delete-0/same-position tie-break
of §4.A falls under the first rule: the committed E_old wins and E_new
moves to `E_old.P + len(E_old.I)`. -/
def transformOT (enew eold : OTransform) : OTransform :=
  if eold.position + eold.delete ≤ enew.position then
    { enew with position := enew.position + eold.insert.length - eold.delete }
  else if enew.position + enew.delete ≤ eold.position then
    enew
  else
    let overlap :=
      min (enew.position + enew.delete) (eold.position + eold.delete)
        - max enew.position eold.position
    let pos :=
      if eold.position ≤ enew.position then
        eold.position + eold.insert.length
      else
        enew.position + eold.insert.length - eold.delete
    { enew with position := pos, delete := enew.delete - overlap }

/-- Modelled from the spec: §4.A operation 3,
`TransformAgainstSequence(E, [E1..En])` applies `Transform` in order
against each historical edit. -/
def transformSeq (hist : List OTransform) (e : OTransform) : OTransform :=
  hist.foldl transformOT e

/-- Modelled from the spec: §4.D binder state — the document content, the
current committed version `V`, and the ordered history window (the edits
for versions `version - history.length + 1 .. version`, per the §3 history
invariant). -/
structure BinderState where
  content : List Char
  version : Nat
  history : List OTransform
deriving DecidableEq

/-- Modelled from the spec: the history window entries `[vClient .. V]`
(§4.D main-loop step 1), taken from the retained history suffix. -/
def windowOf (st : BinderState) (vClient : Nat) : List OTransform :=
  st.history.drop (vClient - 1 - (st.version - st.history.length))

/-- Modelled from the spec: §4.D "Rewriting each edit's `version` to
`V+1`, `V+2`, …". -/
def renumber (v : Nat) : List OTransform → List OTransform
  | [] => []
  | e :: rest => { e with version := v } :: renumber (v + 1) rest

/-- Modelled from the spec: §7, the `VersionTooNew` submit error. -/
inductive SubmitError where
  | versionTooNew
deriving DecidableEq

/-- Modelled from the spec: §4.D main-loop step 1, processing one incoming
edit batch.  `v_client` is the batch's first edit's declared version; a
batch claiming `v_client > V + 1` is rejected with `VersionTooNew`; an
up-to-date batch (`v_client = V + 1`) is accepted unchanged; an out-of-date
batch is transformed against the history window `[v_client .. V]` and its
versions rewritten to `V+1, V+2, …`.  The resulting edits are applied in
order, `V` advances per edit, the history is extended, and the result
carries the broadcast batch and the version committed for the first edit
(§4.C `assigned_version`). -/
def processBatch (st : BinderState) (batch : List OTransform) :
    Except SubmitError (BinderState × List OTransform × Nat) :=
  match batch with
  | [] => .ok (st, [], st.version + 1)
  | first :: _ =>
    let vClient := first.version
    if st.version + 1 < vClient then
      .error .versionTooNew
    else
      let out :=
        if vClient = st.version + 1 then batch
        else renumber (st.version + 1)
          (batch.map (fun e => transformSeq (windowOf st vClient) e))
      .ok ({ content := out.foldl (fun c e => applyOT e c) st.content,
             version := st.version + out.length,
             history := st.history ++ out }, out, st.version + 1)

/-- Folding `Apply` over a list of edits, oldest first. -/
def applyAll (c : List Char) (es : List OTransform) : List Char :=
  es.foldl (fun c e => applyOT e c) c

/-- Modelled from the spec: a run of the Binder's serialization loop over a
list of submitted batches.  A rejected batch commits nothing and is not
broadcast; an accepted batch's transformed form is broadcast identically to
every subscriber (§4.D broadcast), so the run returns the final state and
the ordered list of broadcast batches. -/
def runBinder (st : BinderState) : List (List OTransform) → BinderState × List (List OTransform)
  | [] => (st, [])
  | b :: bs =>
    match processBatch st b with
    | .error _ => runBinder st bs
    | .ok (st', out, _) =>
      let r := runBinder st' bs
      (r.1, out :: r.2)

/-- Modelled from the spec: §4.C `Snapshot` and §8 invariant 1 — a
subscriber joining after the first `k` submitted batches holds the document
snapshot taken at subscribe time and reconstructs its view by applying
every subsequently broadcast edit to it in order. -/
def subscriberView (st0 : BinderState) (bs : List (List OTransform)) (k : Nat) : List Char :=
  applyAll (runBinder st0 (bs.take k)).1.content
    ((runBinder (runBinder st0 (bs.take k)).1 (bs.drop k)).2.flatten)

/-- The first declared version of a batch (`v_client` in §4.D); a batch is
well formed when its declared versions are contiguous from it. -/
def headVersion : List OTransform → Nat
  | [] => 1
  | e :: _ => e.version

/-- A batch whose declared versions are contiguous starting at its first
edit's version, as the clients of the binder tests produce. -/
def wellFormedBatch (b : List OTransform) : Prop :=
  b.map OTransform.version = List.range' (headVersion b) b.length

instance decWellFormedBatch (b : List OTransform) : Decidable (wellFormedBatch b) :=
  inferInstanceAs (Decidable (_ = _))

/-- Modelled from the spec: §4.C/§4.D — one subscriber's bounded outbound
channel (`queue`), the batches its client has already read (`received`),
and whether the Binder has closed the channel. -/
structure SubChannel where
  queue    : List (List OTransform)
  received : List (List OTransform)
  closed   : Bool
deriving DecidableEq

/-- Modelled from the spec: §4.D broadcast and backpressure — one broadcast
round for one subscriber.  A reading client first drains its channel; the
Binder then attempts a non-blocking send: if the bounded channel has
capacity the batch is enqueued, otherwise the subscriber is evicted (its
channel closed).  A closed channel receives nothing. -/
def broadcastStep (cap : Nat) (reads : Bool) (s : SubChannel)
    (batch : List OTransform) : SubChannel :=
  if s.closed then s
  else
    let s1 := if reads then { s with received := s.received ++ s.queue, queue := [] } else s
    if s1.queue.length < cap then { s1 with queue := s1.queue ++ [batch] }
    else { s1 with closed := true }

/-- Modelled from the spec: the broadcasts a subscriber undergoes over a
run, with a fixed channel capacity and read behaviour. -/
def runSubscriber (cap : Nat) (reads : Bool) (s : SubChannel)
    (bs : List (List OTransform)) : SubChannel :=
  bs.foldl (broadcastStep cap reads) s

end Binder

namespace Auth

/-- The token store: Redis keys to values, embedded as an association
list.  `lookup` finds the stored value, mirroring `GET`. -/
abbrev Store := List (String × String)

/-- The `AllowCreate` flag of the authenticator's `Config` consulted by
`AuthoriseCreate`. -/
structure Config where
  AllowCreate : Bool
deriving DecidableEq

/-- A store operation performed by an authorisation call, recording which
keys were read (`GET`) and deleted (`DEL`). -/
inductive StoreOp where
  | get (key : String)
  | del (key : String)
deriving DecidableEq

/-- `ReadKey` returns the value of a key; `redis.String` on a missing key
yields an error, embedded as `none`. -/
def ReadKey (store : Store) (key : String) : Option String :=
  store.lookup key

/-- `DeleteKey` removes an existing key; the flag records whether the key
existed (`DEL` returned a nonzero count), else `ErrNoKey`. -/
def DeleteKey (store : Store) (key : String) : Store × Bool :=
  (store.filter (fun p => p.1 != key), (store.lookup key).isSome)

/-- `AuthoriseCreate` from `lib/auth/redis_based.go`: refuse unless
`AllowCreate` is set; read the token key (failure refuses); refuse when the
stored value differs from the user ID; otherwise delete the token (a
deletion failure is only logged) and allow.  The result carries the updated
store and the store operations performed. -/
def AuthoriseCreate (cfg : Config) (store : Store) (token userID : String) :
    Bool × Store × List StoreOp :=
  if !cfg.AllowCreate then
    (false, store, [])
  else
    match ReadKey store token with
    | none => (false, store, [.get token])
    | some userKey =>
      if userKey ≠ userID then
        (false, store, [.get token])
      else
        (true, (DeleteKey store token).1, [.get token, .del token])

/-- `AuthoriseJoin` from `lib/auth/redis_based.go`: read the token key
(failure refuses); refuse when the stored value differs from the document
ID; otherwise delete the token and allow. -/
def AuthoriseJoin (store : Store) (token documentID : String) :
    Bool × Store × List StoreOp :=
  match ReadKey store token with
  | none => (false, store, [.get token])
  | some docKey =>
    if docKey ≠ documentID then
      (false, store, [.get token])
    else
      (true, (DeleteKey store token).1, [.get token, .del token])

/-- `AuthoriseReadOnly` from `lib/auth/redis_based.go`: like
`AuthoriseJoin` but the stored value must equal
`"READ-ONLY:" ++ documentID` (the `fmt.Sprintf` of the source). -/
def AuthoriseReadOnly (store : Store) (token documentID : String) :
    Bool × Store × List StoreOp :=
  match ReadKey store token with
  | none => (false, store, [.get token])
  | some docKey =>
    if docKey ≠ "READ-ONLY:" ++ documentID then
      (false, store, [.get token])
    else
      (true, (DeleteKey store token).1, [.get token, .del token])

end Auth

end Leaps

namespace Leaps

namespace Binder

theorem applyAll_append (c : List Char) (xs ys : List OTransform) :
    applyAll c (xs ++ ys) = applyAll (applyAll c xs) ys := by
  simp [applyAll]

theorem processBatch_ok (st : BinderState) (batch : List OTransform)
    (st' : BinderState) (out : List OTransform) (v : Nat)
    (h : processBatch st batch = .ok (st', out, v)) :
    v = st.version + 1 ∧ st'.content = applyAll st.content out ∧
      st'.version = st.version + out.length ∧ st'.history = st.history ++ out := by
  cases batch with
  | nil =>
    simp only [processBatch, Except.ok.injEq, Prod.mk.injEq] at h
    obtain ⟨h1, h2, h3⟩ := h
    subst h1 h2 h3
    simp [applyAll]
  | cons first rest =>
    simp only [processBatch] at h
    split at h
    · exact absurd h (by simp)
    · simp only [Except.ok.injEq, Prod.mk.injEq] at h
      obtain ⟨h1, h2, h3⟩ := h
      subst h1 h2 h3
      simp [applyAll]

theorem renumber_length (v : Nat) (l : List OTransform) :
    (renumber v l).length = l.length := by
  induction l generalizing v with
  | nil => rfl
  | cons e rest ih => simp [renumber, ih]

theorem renumber_map_version (v : Nat) (l : List OTransform) :
    (renumber v l).map OTransform.version = List.range' v l.length := by
  induction l generalizing v with
  | nil => rfl
  | cons e rest ih => simp [renumber, List.range'_succ, ih]

theorem processBatch_versions (st : BinderState) (batch : List OTransform)
    (st' : BinderState) (out : List OTransform) (v : Nat)
    (h : processBatch st batch = .ok (st', out, v))
    (hwf : wellFormedBatch batch) :
    out.map OTransform.version = List.range' (st.version + 1) out.length := by
  cases batch with
  | nil =>
    simp only [processBatch, Except.ok.injEq, Prod.mk.injEq] at h
    obtain ⟨h1, h2, h3⟩ := h
    subst h2
    rfl
  | cons first rest =>
    simp only [processBatch] at h
    split at h
    · exact absurd h (by simp)
    · simp only [Except.ok.injEq, Prod.mk.injEq] at h
      obtain ⟨h1, h2, h3⟩ := h
      subst h2
      split
      · rename_i hv
        have hwf' : (first :: rest).map OTransform.version
            = List.range' first.version (first :: rest).length := hwf
        rw [hv] at hwf'
        exact hwf'
      · rw [renumber_map_version, renumber_length, List.length_map]

theorem range'_glue (a m n : Nat) :
    List.range' a m ++ List.range' (a + m) n = List.range' a (m + n) := by
  induction m generalizing a with
  | zero => simp
  | succ k ih =>
    rw [List.range'_succ, List.cons_append,
      show a + (k + 1) = (a + 1) + k by omega, ih,
      show k + 1 + n = (k + n) + 1 by omega, List.range'_succ]

theorem runBinder_content (bs : List (List OTransform)) (st : BinderState) :
    (runBinder st bs).1.content = applyAll st.content (runBinder st bs).2.flatten := by
  induction bs generalizing st with
  | nil => simp [runBinder, applyAll]
  | cons b rest ih =>
    cases h : processBatch st b with
    | error e => simp only [runBinder, h]; exact ih st
    | ok r =>
      obtain ⟨st', out, v⟩ := r
      have hc := (processBatch_ok st b st' out v h).2.1
      simp only [runBinder, h, List.flatten_cons]
      rw [applyAll_append, ← hc]
      exact ih st'

theorem runBinder_append (xs ys : List (List OTransform)) (st : BinderState) :
    runBinder st (xs ++ ys) =
      ((runBinder (runBinder st xs).1 ys).1,
        (runBinder st xs).2 ++ (runBinder (runBinder st xs).1 ys).2) := by
  induction xs generalizing st with
  | nil => simp [runBinder]
  | cons b rest ih =>
    cases h : processBatch st b with
    | error e => simp only [List.cons_append, runBinder, h]; exact ih st
    | ok r =>
      obtain ⟨st', out, v⟩ := r
      simp only [List.cons_append, runBinder, h, List.append_eq, ih st']

theorem runBinder_versions (bs : List (List OTransform)) (st : BinderState)
    (h : ∀ b ∈ bs, wellFormedBatch b) :
    ((runBinder st bs).2.flatten).map OTransform.version
      = List.range' (st.version + 1) ((runBinder st bs).2.flatten).length
    ∧ (runBinder st bs).1.version = st.version + ((runBinder st bs).2.flatten).length := by
  induction bs generalizing st with
  | nil => simp [runBinder]
  | cons b rest ih =>
    have hb : wellFormedBatch b := h b (by simp)
    have hrest : ∀ x ∈ rest, wellFormedBatch x := fun x hx => h x (by simp [hx])
    cases hp : processBatch st b with
    | error e =>
      simp only [runBinder, hp]
      exact ih st hrest
    | ok r =>
      obtain ⟨st', out, v⟩ := r
      obtain ⟨hv, hc, hver, hh⟩ := processBatch_ok st b st' out v hp
      have hmap := processBatch_versions st b st' out v hp hb
      obtain ⟨ih1, ih2⟩ := ih st' hrest
      simp only [runBinder, hp, List.flatten_cons, List.map_append, List.length_append]
      constructor
      · rw [hmap, ih1, hver,
          show st.version + out.length + 1 = st.version + 1 + out.length by omega]
        exact range'_glue _ _ _
      · rw [ih2, hver]; omega

theorem runSubscriber_cons (cap : Nat) (reads : Bool) (s : SubChannel)
    (b : List OTransform) (bs : List (List OTransform)) :
    runSubscriber cap reads s (b :: bs)
      = runSubscriber cap reads (broadcastStep cap reads s b) bs := rfl

theorem nonReader_fill (cap : Nat) (bs : List (List OTransform)) :
    ∀ s : SubChannel, s.closed = false → s.queue.length + bs.length ≤ cap →
      runSubscriber cap false s bs = { s with queue := s.queue ++ bs } := by
  induction bs with
  | nil =>
    intro s h1 h2
    simp [runSubscriber]
  | cons b rest ih =>
    intro s h1 h2
    have hlt : s.queue.length < cap := by
      simp only [List.length_cons] at h2; omega
    have hstep : broadcastStep cap false s b = { s with queue := s.queue ++ [b] } := by
      simp [broadcastStep, h1, hlt]
    rw [runSubscriber_cons, hstep,
      ih _ (by simp [h1]) (by simp only [List.length_append, List.length_cons,
        List.length_nil] at h2 ⊢; omega)]
    simp

theorem reader_keeps_up (cap : Nat) (bs : List (List OTransform)) (hcap : 1 ≤ cap) :
    ∀ s : SubChannel, s.closed = false → s.queue.length ≤ 1 →
      (runSubscriber cap true s bs).closed = false ∧
      (runSubscriber cap true s bs).received ++ (runSubscriber cap true s bs).queue
        = s.received ++ s.queue ++ bs ∧
      (runSubscriber cap true s bs).queue.length ≤ 1 := by
  induction bs with
  | nil =>
    intro s h1 h2
    simp [runSubscriber, h1, h2]
  | cons b rest ih =>
    intro s h1 h2
    have h0 : 0 < cap := by omega
    have hstep : broadcastStep cap true s b
        = ⟨[b], s.received ++ s.queue, false⟩ := by
      simp [broadcastStep, h1, h0]
    rw [runSubscriber_cons, hstep]
    obtain ⟨c1, c2, c3⟩ := ih ⟨[b], s.received ++ s.queue, false⟩ rfl (by simp)
    refine ⟨c1, ?_, c3⟩
    rw [c2]
    simp

theorem runSubscriber_append (cap : Nat) (reads : Bool) (s : SubChannel)
    (xs ys : List (List OTransform)) :
    runSubscriber cap reads s (xs ++ ys)
      = runSubscriber cap reads (runSubscriber cap reads s xs) ys := by
  simp [runSubscriber, List.foldl_append]

/-- Claim C1 counterexample: the transform algebra does not satisfy the
two-order TP1 convergence equation.  For the committed insert `"A"` at
position 0 and the concurrent insert `"B"` at position 0 of the empty
text, applying `E_old` then the transformed `E_new` yields `"AB"`, while
applying `E_new` then the transformed `E_old` yields `"BA"`: the
tie-break of §4.A makes the two orders disagree. -/
theorem C1_counterexample :
    applyOT (transformOT ⟨0, 1, 0, ['B']⟩ ⟨0, 1, 0, ['A']⟩)
        (applyOT ⟨0, 1, 0, ['A']⟩ []) = ['A', 'B'] ∧
    applyOT (transformOT ⟨0, 1, 0, ['A']⟩ ⟨0, 1, 0, ['B']⟩)
        (applyOT ⟨0, 1, 0, ['B']⟩ []) = ['B', 'A'] ∧
    applyOT (transformOT ⟨0, 1, 0, ['B']⟩ ⟨0, 1, 0, ['A']⟩)
        (applyOT ⟨0, 1, 0, ['A']⟩ [])
      ≠ applyOT (transformOT ⟨0, 1, 0, ['A']⟩ ⟨0, 1, 0, ['B']⟩)
        (applyOT ⟨0, 1, 0, ['B']⟩ []) :=
  ⟨rfl, rfl, by decide⟩

/-- Claim C1 (amended): the algebra does not give order-independent (TP1)
convergence — see the counterexample — but the Binder never relies on it:
every edit is committed and broadcast in the Binder's single canonical
serialization (the committed `E_old` first, then the transformed `E_new`),
so every subscriber's reconstruction — Snapshot plus applied broadcasts —
equals the Binder's authoritative final content, and hence any two
subscribers that drain their outbound channels over the same run hold
identical document content, no matter when each subscribed. -/
theorem C1_serialized_convergence (st0 : BinderState) (bs : List (List OTransform))
    (i j : Nat) :
    subscriberView st0 bs i = (runBinder st0 bs).1.content ∧
    subscriberView st0 bs i = subscriberView st0 bs j := by
  have key : ∀ k : Nat, subscriberView st0 bs k = (runBinder st0 bs).1.content := by
    intro k
    have hsplit := runBinder_append (bs.take k) (bs.drop k) st0
    rw [List.take_append_drop] at hsplit
    simp only [subscriberView]
    rw [← runBinder_content, hsplit]
  rw [key i, key j]
  exact ⟨rfl, rfl⟩

/-- Claim C2: `Submit` returns the version at which the Binder commits the
first edit of the batch, namely `V + 1`; the i-th edit of the batch is
committed at that version plus i (its history slot, and — for a batch with
contiguous declared versions — its broadcast `version` field); the return
value is not the version after the whole batch. -/
theorem C2_submit_returns_first_version (st : BinderState) (batch : List OTransform)
    (st' : BinderState) (out : List OTransform) (v : Nat)
    (h : processBatch st batch = .ok (st', out, v)) :
    v = st.version + 1 ∧
    st'.history = st.history ++ out ∧
    st'.version = st.version + out.length ∧
    (wellFormedBatch batch →
      out.map OTransform.version = List.range' v out.length) ∧
    (2 ≤ out.length → v < st'.version) := by
  obtain ⟨h1, _, h3, h4⟩ := processBatch_ok st batch st' out v h
  refine ⟨h1, h4, h3, ?_, ?_⟩
  · intro hwf
    rw [h1]
    exact processBatch_versions st batch st' out v h hwf
  · intro hlen
    omega

theorem C2_witness :
    (1 : Nat) = 0 + 1 ∧
    [(⟨0, 1, 0, ['a']⟩ : OTransform), ⟨1, 2, 0, ['b']⟩]
      = [] ++ [⟨0, 1, 0, ['a']⟩, ⟨1, 2, 0, ['b']⟩] ∧
    (2 : Nat) = 0 + 2 ∧
    (wellFormedBatch [⟨0, 1, 0, ['a']⟩, ⟨1, 2, 0, ['b']⟩] →
      [(⟨0, 1, 0, ['a']⟩ : OTransform), ⟨1, 2, 0, ['b']⟩].map OTransform.version
        = List.range' 1 2) ∧
    (2 ≤ 2 → 1 < 2) :=
  C2_submit_returns_first_version ⟨[], 0, []⟩ [⟨0, 1, 0, ['a']⟩, ⟨1, 2, 0, ['b']⟩]
    ⟨['a', 'b'], 2, [⟨0, 1, 0, ['a']⟩, ⟨1, 2, 0, ['b']⟩]⟩
    [⟨0, 1, 0, ['a']⟩, ⟨1, 2, 0, ['b']⟩] 1 rfl

/-- Claim C3: on a fresh document `"hello world"` (version 1), submitting
`{position 6, version 2, delete 5, insert "universe"}` yields content
`"hello universe"`, committed version 2, `Submit` returning 2, and the
single broadcast batch carries that edit unchanged. -/
theorem C3_simple_insert :
    runBinder ⟨"hello world".toList, 1, []⟩ [[⟨6, 2, 5, "universe".toList⟩]]
      = (⟨"hello universe".toList, 2, [⟨6, 2, 5, "universe".toList⟩]⟩,
         [[⟨6, 2, 5, "universe".toList⟩]]) ∧
    processBatch ⟨"hello world".toList, 1, []⟩ [⟨6, 2, 5, "universe".toList⟩]
      = .ok (⟨"hello universe".toList, 2, [⟨6, 2, 5, "universe".toList⟩]⟩,
          [⟨6, 2, 5, "universe".toList⟩], 2) :=
  ⟨rfl, rfl⟩

/-- Claim C4: a batch whose first declared version is at most the current
committed version is transformed, edit by edit, against the history window
entries `[v_client .. V]` and renumbered to `V+1, V+2, …`; in particular on
`"abcdef"` with committed v1 `{position 1, delete 3}`, the concurrent edit
`{position 2, version 1, delete 1, insert "X"}` becomes
`{position 1, version 2, delete 0, insert "X"}` and the content `"aXef"`. -/
theorem C4_out_of_date_transformed (st : BinderState) (first : OTransform)
    (rest : List OTransform) (st' : BinderState) (out : List OTransform) (v : Nat)
    (hle : first.version ≤ st.version)
    (h : processBatch st (first :: rest) = .ok (st', out, v)) :
    out = renumber (st.version + 1)
      ((first :: rest).map (fun e => transformSeq (windowOf st first.version) e)) ∧
    runBinder ⟨"abcdef".toList, 0, []⟩ [[⟨1, 1, 3, []⟩], [⟨2, 1, 1, "X".toList⟩]]
      = (⟨"aXef".toList, 2, [⟨1, 1, 3, []⟩, ⟨1, 2, 0, "X".toList⟩]⟩,
         [[⟨1, 1, 3, []⟩], [⟨1, 2, 0, "X".toList⟩]]) := by
  refine ⟨?_, rfl⟩
  simp only [processBatch] at h
  rw [if_neg (by omega), if_neg (by omega)] at h
  simp only [Except.ok.injEq, Prod.mk.injEq] at h
  exact h.2.1.symm

theorem C4_witness :
    [(⟨1, 2, 0, "X".toList⟩ : OTransform)]
      = renumber 2 ([⟨2, 1, 1, "X".toList⟩].map
          (fun e => transformSeq (windowOf ⟨"aef".toList, 1, [⟨1, 1, 3, []⟩]⟩ 1) e)) ∧
    runBinder ⟨"abcdef".toList, 0, []⟩ [[⟨1, 1, 3, []⟩], [⟨2, 1, 1, "X".toList⟩]]
      = (⟨"aXef".toList, 2, [⟨1, 1, 3, []⟩, ⟨1, 2, 0, "X".toList⟩]⟩,
         [[⟨1, 1, 3, []⟩], [⟨1, 2, 0, "X".toList⟩]]) :=
  C4_out_of_date_transformed ⟨"aef".toList, 1, [⟨1, 1, 3, []⟩]⟩ ⟨2, 1, 1, "X".toList⟩ []
    ⟨"aXef".toList, 2, [⟨1, 1, 3, []⟩, ⟨1, 2, 0, "X".toList⟩]⟩ [⟨1, 2, 0, "X".toList⟩] 2
    (by decide) rfl

/-- Claim C5: when two edits with `delete = 0` target the same position the
already-committed `E_old` wins the tie-break and `E_new` moves to
`E_old.position + len(E_old.insert)`; in particular two concurrent inserts
`"A"` and `"B"` at position 0 of the empty document commit as versions 1
and 2, the second transformed to position 1, final content of length 2 in
serialization order. -/
theorem C5_insert_tiebreak (eold enew : OTransform)
    (h1 : eold.delete = 0) (h2 : enew.delete = 0) (h3 : enew.position = eold.position) :
    transformOT enew eold = { enew with position := eold.position + eold.insert.length } ∧
    runBinder ⟨[], 0, []⟩ [[⟨0, 1, 0, ['A']⟩], [⟨0, 1, 0, ['B']⟩]]
      = (⟨['A', 'B'], 2, [⟨0, 1, 0, ['A']⟩, ⟨1, 2, 0, ['B']⟩]⟩,
         [[⟨0, 1, 0, ['A']⟩], [⟨1, 2, 0, ['B']⟩]]) := by
  refine ⟨?_, rfl⟩
  unfold transformOT
  rw [h1, h3, if_pos (by omega)]
  simp

theorem C5_witness :
    transformOT ⟨0, 1, 0, ['B']⟩ ⟨0, 1, 0, ['A']⟩ = ⟨1, 1, 0, ['B']⟩ ∧
    runBinder ⟨[], 0, []⟩ [[⟨0, 1, 0, ['A']⟩], [⟨0, 1, 0, ['B']⟩]]
      = (⟨['A', 'B'], 2, [⟨0, 1, 0, ['A']⟩, ⟨1, 2, 0, ['B']⟩]⟩,
         [[⟨0, 1, 0, ['A']⟩], [⟨1, 2, 0, ['B']⟩]]) :=
  C5_insert_tiebreak ⟨0, 1, 0, ['A']⟩ ⟨0, 1, 0, ['B']⟩ rfl rfl rfl

/-- Claim C6: from any subscription point (any binder state `st`), the
edits broadcast over a run of well-formed batches carry strictly
increasing, contiguous version numbers `st.version + 1, st.version + 2, …`
with no gaps and no reordering; the broadcast list itself is a single total
order shared by every subscriber. -/
theorem C6_version_contiguity (st : BinderState) (bs : List (List OTransform))
    (h : ∀ b ∈ bs, wellFormedBatch b) :
    ((runBinder st bs).2.flatten).map OTransform.version
      = List.range' (st.version + 1) ((runBinder st bs).2.flatten).length :=
  (runBinder_versions bs st h).1

theorem C6_witness :
    ((runBinder ⟨[], 0, []⟩ [[⟨0, 1, 0, ['A']⟩], [⟨0, 1, 0, ['B']⟩]]).2.flatten).map
        OTransform.version
      = List.range' 1
          ((runBinder ⟨[], 0, []⟩ [[⟨0, 1, 0, ['A']⟩], [⟨0, 1, 0, ['B']⟩]]).2.flatten).length :=
  C6_version_contiguity ⟨[], 0, []⟩ [[⟨0, 1, 0, ['A']⟩], [⟨0, 1, 0, ['B']⟩]] (by decide)

/-- Claim C7: with a bounded outbound channel of capacity `cap ≥ 1`, a
subscriber that never reads survives exactly `cap` broadcasts and is
evicted (channel closed) on the next one — one broadcast attempt past its
buffer capacity — while a subscriber that keeps reading is never evicted
and receives every broadcast batch. -/
theorem C7_backpressure_eviction (cap : Nat) (bs : List (List OTransform))
    (hcap : 1 ≤ cap) (hlen : bs.length = cap + 1) :
    (runSubscriber cap false ⟨[], [], false⟩ bs).closed = true ∧
    (runSubscriber cap false ⟨[], [], false⟩ (bs.take cap)).closed = false ∧
    (runSubscriber cap true ⟨[], [], false⟩ bs).closed = false ∧
    (runSubscriber cap true ⟨[], [], false⟩ bs).received
      ++ (runSubscriber cap true ⟨[], [], false⟩ bs).queue = bs := by
  obtain ⟨r1, r2, r3⟩ := reader_keeps_up cap bs hcap ⟨[], [], false⟩ rfl (by simp)
  have htake : (bs.take cap).length = cap := by
    rw [List.length_take, hlen]; omega
  have hfill := nonReader_fill cap (bs.take cap) ⟨[], [], false⟩ rfl
    (by simp [htake])
  have hdrop1 : (bs.drop cap).length = 1 := by
    rw [List.length_drop, hlen]; omega
  obtain ⟨b, tail, hd⟩ : ∃ b tail, bs.drop cap = b :: tail := by
    cases hdd : bs.drop cap with
    | nil => rw [hdd] at hdrop1; simp at hdrop1
    | cons x xs => exact ⟨x, xs, rfl⟩
  have htail : tail = [] := by
    rw [hd] at hdrop1
    simp only [List.length_cons, Nat.add_left_eq_self] at hdrop1
    exact List.length_eq_zero.mp hdrop1
  have hsplit : bs.take cap ++ [b] = bs := by
    subst htail
    conv_rhs => rw [← List.take_append_drop cap bs]
    rw [hd]
  refine ⟨?_, ?_, r1, ?_⟩
  · rw [← hsplit, runSubscriber_append, hfill]
    show (broadcastStep cap false ⟨[] ++ bs.take cap, [], false⟩ b).closed = true
    simp [broadcastStep, htake]
  · rw [hfill]
  · rw [r2]
    simp

theorem C7_witness :
    (runSubscriber 1 false ⟨[], [], false⟩
      [[⟨0, 1, 0, ['a']⟩], [⟨0, 2, 0, ['b']⟩]]).closed = true ∧
    (runSubscriber 1 false ⟨[], [], false⟩
      ([[⟨0, 1, 0, ['a']⟩], [⟨0, 2, 0, ['b']⟩]].take 1)).closed = false ∧
    (runSubscriber 1 true ⟨[], [], false⟩
      [[⟨0, 1, 0, ['a']⟩], [⟨0, 2, 0, ['b']⟩]]).closed = false ∧
    (runSubscriber 1 true ⟨[], [], false⟩
        [[⟨0, 1, 0, ['a']⟩], [⟨0, 2, 0, ['b']⟩]]).received
      ++ (runSubscriber 1 true ⟨[], [], false⟩
        [[⟨0, 1, 0, ['a']⟩], [⟨0, 2, 0, ['b']⟩]]).queue
      = [[⟨0, 1, 0, ['a']⟩], [⟨0, 2, 0, ['b']⟩]] :=
  C7_backpressure_eviction 1 [[⟨0, 1, 0, ['a']⟩], [⟨0, 2, 0, ['b']⟩]] (by decide) rfl

end Binder

namespace Auth

theorem lookup_filter_self (s : Store) (k : String) :
    (s.filter (fun p => p.1 != k)).lookup k = none := by
  induction s with
  | nil => rfl
  | cons p t ih =>
    obtain ⟨k', v'⟩ := p
    by_cases h : k' = k
    · simp only [List.filter_cons]
      rw [show ((k', v').1 != k) = false by simp [h]]
      exact ih
    · simp only [List.filter_cons]
      rw [show ((k', v').1 != k) = true by simp [h], if_pos rfl, List.lookup_cons]
      simp only [show (k == k') = false by simp [Ne.symm h]]
      exact ih

/-- Claim C8 counterexample: `AuthoriseJoin` denies the token `"t"` (stored
value `"doc1"` does not match `"doc2"`) yet leaves the store unchanged, and
a later attempt presenting the same token succeeds — so the deny path does
not consume the token. -/
theorem C8_counterexample :
    (AuthoriseJoin [("t", "doc1")] "t" "doc2").1 = false ∧
    (AuthoriseJoin [("t", "doc1")] "t" "doc2").2.1 = [("t", "doc1")] ∧
    (AuthoriseJoin (AuthoriseJoin [("t", "doc1")] "t" "doc2").2.1 "t" "doc1").1 = true :=
  ⟨rfl, rfl, rfl⟩

/-- Claim C8 (amended): when an authorisation call denies a token — for any
reason, including a stored value that does not match the expected user or
document ID — the token is NOT consumed: the store is left unchanged on
every deny path, and the token is deleted only on a successful
authorisation. -/
theorem C8_deny_keeps_token (cfg : Config) (store : Store) (token a b c : String) :
    ((AuthoriseCreate cfg store token a).1 = false →
      (AuthoriseCreate cfg store token a).2.1 = store) ∧
    ((AuthoriseJoin store token b).1 = false →
      (AuthoriseJoin store token b).2.1 = store) ∧
    ((AuthoriseReadOnly store token c).1 = false →
      (AuthoriseReadOnly store token c).2.1 = store) := by
  refine ⟨?_, ?_, ?_⟩
  · intro h
    by_cases hc : cfg.AllowCreate
    · cases hr : ReadKey store token with
      | none => simp [AuthoriseCreate, hc, hr]
      | some k =>
        by_cases hk : k = a
        · simp [AuthoriseCreate, hc, hr, hk] at h
        · simp [AuthoriseCreate, hc, hr, hk]
    · simp [AuthoriseCreate, hc]
  · intro h
    cases hr : ReadKey store token with
    | none => simp [AuthoriseJoin, hr]
    | some k =>
      by_cases hk : k = b
      · simp [AuthoriseJoin, hr, hk] at h
      · simp [AuthoriseJoin, hr, hk]
  · intro h
    cases hr : ReadKey store token with
    | none => simp [AuthoriseReadOnly, hr]
    | some k =>
      by_cases hk : k = "READ-ONLY:" ++ c
      · simp [AuthoriseReadOnly, hr, hk] at h
      · simp [AuthoriseReadOnly, hr, hk]

theorem C8_witness :
    (AuthoriseJoin [("t", "doc1")] "t" "doc2").2.1 = [("t", "doc1")] :=
  (C8_deny_keeps_token ⟨true⟩ [("t", "doc1")] "t" "x" "doc2" "y").2.1 rfl

/-- Claim C9: with `AllowCreate` false, `AuthoriseCreate` refuses every
token and user ID before any store access: the store is unchanged and no
key is read or deleted (empty operation trace). -/
theorem C9_create_gated (cfg : Config) (store : Store) (token userID : String)
    (h : cfg.AllowCreate = false) :
    AuthoriseCreate cfg store token userID = (false, store, []) := by
  simp [AuthoriseCreate, h]

theorem C9_witness :
    AuthoriseCreate ⟨false⟩ [("t", "u")] "t" "u" = (false, [("t", "u")], []) :=
  C9_create_gated ⟨false⟩ [("t", "u")] "t" "u" rfl

/-- Claim C10: each authorisation operation returns false when the token is
absent from the store; on success the token key is deleted, so a second
attempt with the same token (against any expected ID) returns false. -/
theorem C10_single_use_tokens (cfg : Config) (store : Store)
    (token uid did rid y z w : String) :
    (store.lookup token = none →
      (AuthoriseCreate cfg store token uid).1 = false ∧
      (AuthoriseJoin store token did).1 = false ∧
      (AuthoriseReadOnly store token rid).1 = false) ∧
    ((AuthoriseCreate cfg store token uid).1 = true →
      (AuthoriseCreate cfg store token uid).2.1.lookup token = none ∧
      (AuthoriseCreate cfg (AuthoriseCreate cfg store token uid).2.1 token y).1 = false) ∧
    ((AuthoriseJoin store token did).1 = true →
      (AuthoriseJoin store token did).2.1.lookup token = none ∧
      (AuthoriseJoin (AuthoriseJoin store token did).2.1 token z).1 = false) ∧
    ((AuthoriseReadOnly store token rid).1 = true →
      (AuthoriseReadOnly store token rid).2.1.lookup token = none ∧
      (AuthoriseReadOnly (AuthoriseReadOnly store token rid).2.1 token w).1 = false) := by
  refine ⟨?_, ?_, ?_, ?_⟩
  · intro h
    refine ⟨?_, ?_, ?_⟩
    · by_cases hc : cfg.AllowCreate <;>
        simp [AuthoriseCreate, ReadKey, h, hc]
    · simp [AuthoriseJoin, ReadKey, h]
    · simp [AuthoriseReadOnly, ReadKey, h]
  · intro h
    have hc : cfg.AllowCreate = true := by
      by_cases hcc : cfg.AllowCreate
      · exact hcc
      · simp [AuthoriseCreate, hcc] at h
    cases hr : ReadKey store token with
    | none => simp [AuthoriseCreate, hc, hr] at h
    | some k =>
      by_cases hk : k = uid
      · have hstore : (AuthoriseCreate cfg store token uid).2.1
            = store.filter (fun p => p.1 != token) := by
          simp [AuthoriseCreate, hc, hr, hk, DeleteKey]
        rw [hstore]
        refine ⟨lookup_filter_self store token, ?_⟩
        simp [AuthoriseCreate, hc, ReadKey, lookup_filter_self]
      · simp [AuthoriseCreate, hc, hr, hk] at h
  · intro h
    cases hr : ReadKey store token with
    | none => simp [AuthoriseJoin, hr] at h
    | some k =>
      by_cases hk : k = did
      · have hstore : (AuthoriseJoin store token did).2.1
            = store.filter (fun p => p.1 != token) := by
          simp [AuthoriseJoin, hr, hk, DeleteKey]
        rw [hstore]
        refine ⟨lookup_filter_self store token, ?_⟩
        simp [AuthoriseJoin, ReadKey, lookup_filter_self]
      · simp [AuthoriseJoin, hr, hk] at h
  · intro h
    cases hr : ReadKey store token with
    | none => simp [AuthoriseReadOnly, hr] at h
    | some k =>
      by_cases hk : k = "READ-ONLY:" ++ rid
      · have hstore : (AuthoriseReadOnly store token rid).2.1
            = store.filter (fun p => p.1 != token) := by
          simp [AuthoriseReadOnly, hr, hk, DeleteKey]
        rw [hstore]
        refine ⟨lookup_filter_self store token, ?_⟩
        simp [AuthoriseReadOnly, ReadKey, lookup_filter_self]
      · simp [AuthoriseReadOnly, hr, hk] at h

theorem C10_witness :
    (AuthoriseCreate ⟨true⟩ [("t", "u1")] "t" "u1").2.1.lookup "t" = none ∧
    (AuthoriseCreate ⟨true⟩ (AuthoriseCreate ⟨true⟩ [("t", "u1")] "t" "u1").2.1
      "t" "u1").1 = false :=
  (C10_single_use_tokens ⟨true⟩ [("t", "u1")] "t" "u1" "d" "r" "u1" "d" "r").2.1 rfl

end Auth

end Leaps
